import Mathlib

/-!
Verification development for the infinite-canvas drawing application.

The definitions below are a shallow embedding of the interaction core found
in the application source: the element data model (types.ts), the viewport
transform, resize, selection, move, duplicate and bounds logic of the
InfiniteCanvas component, and the undo-history persistence effect of the
Home page component. Coordinates are modelled as rationals; the browser
key-value storage is modelled as an explicit record of the three keys the
persistence effect touches.
-/

namespace Canvas

/-- Point is a world- or screen-space coordinate pair (types.ts). -/
structure Point where
  x : ℚ
  y : ℚ
deriving DecidableEq, Repr

/-- ViewportTransform from types.ts: pan offset plus uniform scale. -/
structure Viewport where
  x : ℚ
  y : ℚ
  scale : ℚ
deriving DecidableEq, Repr

/-- StrokeStyle from types.ts. -/
inductive SStyle where
  | solid
  | dashed
  | dotted
deriving DecidableEq, Repr

/-- Variant-specific geometry of the CanvasElementType tagged union
(types.ts): each constructor carries exactly the positional and variant
fields that exist on that variant. -/
inductive ElemGeom where
  | path (points : List Point)
  | rectangle (x y width height : ℚ)
  | circle (x y radius : ℚ)
  | ellipse (x y width height : ℚ)
  | diamond (x y width height : ℚ)
  | line (startX startY endX endY : ℚ)
  | arrow (startX startY endX endY : ℚ)
  | text (x y : ℚ) (content : String) (fontSize : ℚ) (fontFamily : String)
  | image (x y width height : ℚ) (src : String)
deriving DecidableEq, Repr

/-- CanvasElement common attributes (types.ts) together with the
variant-specific geometry. -/
structure CanvasElement where
  id : String
  color : String
  strokeWidth : ℚ
  fill : Option String
  opacity : Option ℚ
  roughness : Option ℚ
  strokeStyle : Option SStyle
  seed : Option ℚ
  geom : ElemGeom
deriving DecidableEq, Repr

/-- Axis-aligned box as used for element bounds and resize bookkeeping. -/
structure Bounds where
  x : ℚ
  y : ℚ
  width : ℚ
  height : ℚ
deriving DecidableEq, Repr

/-- screenToCanvas from InfiniteCanvas: screen coordinates to world
coordinates via the viewport transform. -/
def screenToCanvas (v : Viewport) (screenX screenY : ℚ) : Point :=
  ⟨(screenX - v.x) / v.scale, (screenY - v.y) / v.scale⟩

/-- Modelled from the spec: worldToScreen is the inverse transform implied
by the screenToCanvas formula, mapping a world point to its screen
projection under a viewport. It has no direct counterpart function in the
source; the source applies the same transform through the canvas context. -/
def worldToScreen (v : Viewport) (p : Point) : Point :=
  ⟨p.x * v.scale + v.x, p.y * v.scale + v.y⟩

/-- handleWheel from InfiniteCanvas: one wheel-zoom step about the mouse
point. The wheel delta sign is modelled as the boolean zoomIn
(deltaY < 0). -/
def wheelZoom (v : Viewport) (mouseX mouseY : ℚ) (zoomIn : Bool) : Viewport :=
  let zoom : ℚ := if zoomIn then 11/10 else 9/10
  let newScale := max (1/10) (min 10 (v.scale * zoom))
  ⟨mouseX - (mouseX - v.x) * newScale / v.scale,
   mouseY - (mouseY - v.y) * newScale / v.scale,
   newScale⟩

/-- Resize handle names used by the resize state of InfiniteCanvas. -/
inductive Handle where
  | nw
  | n
  | ne
  | e
  | se
  | s
  | sw
  | w
deriving DecidableEq, Repr

/-- Embeds handle.includes of the letter w in the minimum-size clamp of
handleMouseMove. -/
def handleHasW : Handle → Bool
  | .nw => true
  | .sw => true
  | .w => true
  | _ => false

/-- Embeds handle.includes of the letter n in the minimum-size clamp of
handleMouseMove. -/
def handleHasN : Handle → Bool
  | .nw => true
  | .n => true
  | .ne => true
  | _ => false

/-- Embeds the corner-handle membership test of the image resize branch of
handleMouseMove. -/
def isCornerHandle : Handle → Bool
  | .nw => true
  | .ne => true
  | .se => true
  | .sw => true
  | _ => false

/-- Embeds the per-handle switch of handleMouseMove that computes the
candidate new bounds from the start bounds and the world-space drag
delta. -/
def resizeBounds (hd : Handle) (sb : Bounds) (dx dy : ℚ) : Bounds :=
  match hd with
  | .nw => ⟨sb.x + dx, sb.y + dy, sb.width - dx, sb.height - dy⟩
  | .n => ⟨sb.x, sb.y + dy, sb.width, sb.height - dy⟩
  | .ne => ⟨sb.x, sb.y + dy, sb.width + dx, sb.height - dy⟩
  | .e => ⟨sb.x, sb.y, sb.width + dx, sb.height⟩
  | .se => ⟨sb.x, sb.y, sb.width + dx, sb.height + dy⟩
  | .s => ⟨sb.x, sb.y, sb.width, sb.height + dy⟩
  | .sw => ⟨sb.x + dx, sb.y, sb.width - dx, sb.height + dy⟩
  | .w => ⟨sb.x + dx, sb.y, sb.width - dx, sb.height⟩

/-- Embeds the first conditional of the minimum-size clamp of
handleMouseMove: a candidate width below 10 is clamped to 10 and, for
handles that drag the west side, the x origin is repositioned against the
start bounds. -/
def clampWidth (hd : Handle) (sb : Bounds) (b : Bounds) : Bounds :=
  if b.width < 10 then
    ⟨if handleHasW hd then sb.x + sb.width - 10 else b.x, b.y, 10, b.height⟩
  else b

/-- Embeds the second conditional of the minimum-size clamp, which runs on
the result of the width clamp. -/
def clampHeight (hd : Handle) (sb : Bounds) (b : Bounds) : Bounds :=
  if b.height < 10 then
    ⟨b.x, if handleHasN hd then sb.y + sb.height - 10 else b.y, b.width, 10⟩
  else b

/-- The two clamp conditionals in source order: width first, then
height. -/
def clampMinSize (hd : Handle) (sb : Bounds) (b : Bounds) : Bounds :=
  clampHeight hd sb (clampWidth hd sb b)

/-- Candidate bounds entering the per-variant resize mapping: the
per-handle switch followed by the minimum-size clamp, exactly as
sequenced in handleMouseMove. -/
def candidateBounds (hd : Handle) (sb : Bounds) (dx dy : ℚ) : Bounds :=
  clampMinSize hd sb (resizeBounds hd sb dx dy)

/-- Embeds the per-element-type resize mapping of handleMouseMove: the
clamped candidate bounds are applied to the dragged element according to
its variant. -/
def applyResize (el : CanvasElement) (hd : Handle) (sb : Bounds) (dx dy : ℚ) :
    CanvasElement :=
  let c := candidateBounds hd sb dx dy
  match el.geom with
  | .rectangle _ _ _ _ => { el with geom := .rectangle c.x c.y c.width c.height }
  | .ellipse _ _ _ _ => { el with geom := .ellipse c.x c.y c.width c.height }
  | .diamond _ _ _ _ => { el with geom := .diamond c.x c.y c.width c.height }
  | .image _ _ _ _ src =>
    if isCornerHandle hd then
      let aspect := sb.width / sb.height
      let widthChange := |c.width - sb.width|
      let heightChange := |c.height - sb.height|
      let fw := if widthChange > heightChange then c.width else c.height * aspect
      let fh := if widthChange > heightChange then c.width / aspect else c.height
      let fx := if hd = .nw ∨ hd = .sw then sb.x + sb.width - fw else c.x
      let fy := if hd = .nw ∨ hd = .ne then sb.y + sb.height - fh else c.y
      { el with geom := .image fx fy fw fh src }
    else { el with geom := .image c.x c.y c.width c.height src }
  | .circle _ _ _ =>
    let r := max c.width c.height / 2
    { el with geom := .circle (c.x + r) (c.y + r) r }
  | .line sx sy ex ey =>
    let scaleX := c.width / sb.width
    let scaleY := c.height / sb.height
    let g : ElemGeom := .line (c.x + (sx - sb.x) * scaleX) (c.y + (sy - sb.y) * scaleY)
      (c.x + (ex - sb.x) * scaleX) (c.y + (ey - sb.y) * scaleY)
    { el with geom := g }
  | .arrow sx sy ex ey =>
    let scaleX := c.width / sb.width
    let scaleY := c.height / sb.height
    let g : ElemGeom := .arrow (c.x + (sx - sb.x) * scaleX) (c.y + (sy - sb.y) * scaleY)
      (c.x + (ex - sb.x) * scaleX) (c.y + (ey - sb.y) * scaleY)
    { el with geom := g }
  | .text _ _ t fs ff =>
    let sc := c.height / sb.height
    { el with geom := .text c.x (c.y + c.height) t (max 8 (fs * sc)) ff }
  | .path pts =>
    let scaleX := c.width / max sb.width 1
    let scaleY := c.height / max sb.height 1
    { el with geom := .path (pts.map fun p =>
        ⟨c.x + (p.x - sb.x) * scaleX, c.y + (p.y - sb.y) * scaleY⟩) }

/-- getElementBounds from InfiniteCanvas: the per-variant bounding box.
The external text-metrics collaborator is passed in as the measure
function, mirroring the delegation to measureText. -/
def getElementBounds (measure : String → ℚ → String → ℚ × ℚ)
    (el : CanvasElement) : Option Bounds :=
  match el.geom with
  | .rectangle x y w h => some ⟨x, y, w, h⟩
  | .ellipse x y w h => some ⟨x, y, w, h⟩
  | .diamond x y w h => some ⟨x, y, w, h⟩
  | .circle x y r => some ⟨x - r, y - r, r * 2, r * 2⟩
  | .line sx sy ex ey => some ⟨min sx ex, min sy ey, |ex - sx|, |ey - sy|⟩
  | .arrow sx sy ex ey => some ⟨min sx ex, min sy ey, |ex - sx|, |ey - sy|⟩
  | .text x y t fs ff =>
    some ⟨x, y - (measure t fs ff).2, (measure t fs ff).1, (measure t fs ff).2⟩
  | .path [] => none
  | .path (p :: ps) =>
    some ⟨(ps.map fun q => q.x).foldl min p.x,
          (ps.map fun q => q.y).foldl min p.y,
          (ps.map fun q => q.x).foldl max p.x - (ps.map fun q => q.x).foldl min p.x,
          (ps.map fun q => q.y).foldl max p.y - (ps.map fun q => q.y).foldl min p.y⟩
  | .image x y w h _ => some ⟨x, y, w, h⟩

/-- Embeds the per-element containment test of the selection-box branch of
handleMouseUp: an element passes when its bounds exist and lie inside the
normalized box. -/
def marqueeHit (measure : String → ℚ → String → ℚ × ℚ)
    (minX maxX minY maxY : ℚ) (el : CanvasElement) : Bool :=
  match getElementBounds measure el with
  | none => false
  | some b =>
    decide (minX ≤ b.x) && decide (b.x + b.width ≤ maxX) &&
    decide (minY ≤ b.y) && decide (b.y + b.height ≤ maxY)

/-- Embeds the selection-box branch of handleMouseUp: normalize the box
corners with min and max, keep the elements whose bounds lie fully inside,
and collect their identifiers. -/
def marqueeSelect (measure : String → ℚ → String → ℚ × ℚ)
    (startP endP : Point) (els : List CanvasElement) : List String :=
  (els.filter (marqueeHit measure (min startP.x endP.x) (max startP.x endP.x)
    (min startP.y endP.y) (max startP.y endP.y))).map fun el => el.id

/-- Base element record shared by the concrete elements used in witnesses
and counterexamples. -/
def baseElem (i : String) (g : ElemGeom) : CanvasElement :=
  ⟨i, "#1e1e1e", 2, none, none, none, none, none, g⟩

/-- Concrete rectangle at origin with width 100 and height 50. -/
def cRect : CanvasElement := baseElem "r1" (.rectangle 0 0 100 50)

/-- Concrete image at origin with width 200 and height 100. -/
def cImage : CanvasElement := baseElem "i1" (.image 0 0 200 100 "img")

/-- Concrete rectangle with negative width and height, as produced by a
right-to-left interactive drag. -/
def cRectNeg : CanvasElement := baseElem "rn" (.rectangle 0 0 (-50) (-30))

/-- Concrete rectangle placed so that it straddles the marquee used in the
selection witness. -/
def cRect2 : CanvasElement := baseElem "r2" (.rectangle 120 0 100 50)

/-- Concrete line segment with unordered endpoints. -/
def cLine : CanvasElement := baseElem "l1" (.line 10 20 3 7)

/-- Concrete freehand path with two points. -/
def cPath : CanvasElement := baseElem "p1" (.path [⟨0, 0⟩, ⟨5, 5⟩])

/-- Concrete stand-in for the external text-metrics collaborator. -/
def cMeasure : String → ℚ → String → ℚ × ℚ := fun _ fs _ => (100, fs)

/-- Concrete expected result of moving cRect by screen delta (10, 20) at
scale 2. -/
def cRectMoved : CanvasElement := baseElem "r1" (.rectangle 5 10 100 50)

/-- Embeds the move-selection branch of handleMouseMove for one element:
a selected element has every positional field of its variant translated by
the world-space delta (the screen delta divided by the viewport scale);
any other element is returned unchanged. -/
def moveElement (sel : List String) (dxC dyC : ℚ) (el : CanvasElement) :
    CanvasElement :=
  if sel.contains el.id then
    { el with geom :=
        match el.geom with
        | .rectangle x y w h => .rectangle (x + dxC) (y + dyC) w h
        | .ellipse x y w h => .ellipse (x + dxC) (y + dyC) w h
        | .diamond x y w h => .diamond (x + dxC) (y + dyC) w h
        | .text x y t fs ff => .text (x + dxC) (y + dyC) t fs ff
        | .image x y w h src => .image (x + dxC) (y + dyC) w h src
        | .circle x y r => .circle (x + dxC) (y + dyC) r
        | .line sx sy ex ey => .line (sx + dxC) (sy + dyC) (ex + dxC) (ey + dyC)
        | .arrow sx sy ex ey => .arrow (sx + dxC) (sy + dyC) (ex + dxC) (ey + dyC)
        | .path pts => .path (pts.map fun p => ⟨p.x + dxC, p.y + dyC⟩) }
  else el

/-- Embeds the move-selection branch of handleMouseMove over the element
collection: map moveElement with the screen delta converted to world
space using the viewport scale. -/
def moveSelected (sel : List String) (scale dx dy : ℚ)
    (els : List CanvasElement) : List CanvasElement :=
  els.map (moveElement sel (dx / scale) (dy / scale))

/-- Embeds the clone construction shared by the duplicate and paste
branches of handleKeyDown: the spread updates the identifier and offsets
x, y, startX, startY, endX, endY by 20 when the variant has them; the
points field of a Path is not among the updated keys and is spread
through unchanged. -/
def offsetPositionalFields (el : CanvasElement) (newId : String) :
    CanvasElement :=
  { el with
    id := newId,
    geom :=
      match el.geom with
      | .path pts => .path pts
      | .rectangle x y w h => .rectangle (x + 20) (y + 20) w h
      | .circle x y r => .circle (x + 20) (y + 20) r
      | .ellipse x y w h => .ellipse (x + 20) (y + 20) w h
      | .diamond x y w h => .diamond (x + 20) (y + 20) w h
      | .line sx sy ex ey => .line (sx + 20) (sy + 20) (ex + 20) (ey + 20)
      | .arrow sx sy ex ey => .arrow (sx + 20) (sy + 20) (ex + 20) (ey + 20)
      | .text x y t fs ff => .text (x + 20) (y + 20) t fs ff
      | .image x y w h src => .image (x + 20) (y + 20) w h src }

/-- Maps offsetPositionalFields over the matched elements, drawing a fresh
identifier per clone position; this abstracts the id expression built from
the clock and a random number in the source. -/
def cloneAll (freshId : Nat → String) : Nat → List CanvasElement → List CanvasElement
  | _, [] => []
  | i, e :: rest => offsetPositionalFields e (freshId i) :: cloneAll freshId (i + 1) rest

/-- Embeds the duplicate branch of handleKeyDown: the selected elements
are cloned with fresh identifiers and the fixed offset, and the clones are
appended to the collection. The paste branch applies the same spread to
the clipboard contents. -/
def duplicateSelected (freshId : Nat → String) (sel : List String)
    (els : List CanvasElement) : List CanvasElement :=
  els ++ cloneAll freshId 0 (els.filter fun e => sel.contains e.id)

/-- The three persisted keys touched by the history effect of the Home
component: the history snapshots, the history cursor and the live element
collection. A missing key holds none. -/
structure HistoryStore where
  canvasHistory : Option (List (List CanvasElement))
  canvasHistoryIndex : Option Int
  canvasElements : Option (List CanvasElement)
deriving DecidableEq, Repr

/-- Embeds the expression history[historyIndex] with its fallback to the
empty collection when the index is out of range. -/
def histCurrent (history : List (List CanvasElement)) (idx : Int) :
    List CanvasElement :=
  if 0 ≤ idx then history.getD idx.toNat [] else []

/-- Embeds the catch block of the history persistence effect: on a quota
failure the effect writes only the current snapshot with cursor 0, and if
that write fails too it removes both history keys. The fitsH and fitsI
predicates model which writes the storage accepts. -/
def persistFallback (fitsH : List (List CanvasElement) → Bool)
    (fitsI : Int → Bool) (st : HistoryStore) (cur : List CanvasElement) :
    HistoryStore :=
  if fitsH [cur] then
    if fitsI 0 then
      { st with canvasHistory := some [cur], canvasHistoryIndex := some (0 : Int) }
    else { st with canvasHistory := none, canvasHistoryIndex := none }
  else { st with canvasHistory := none, canvasHistoryIndex := none }

/-- Embeds the history persistence effect of the Home component: truncate
the history to the most recent 50 snapshots, clamp the cursor to the
truncated length, try to write both keys, and fall back per the catch
block when a write is refused. -/
def persistHistory (fitsH : List (List CanvasElement) → Bool)
    (fitsI : Int → Bool) (st : HistoryStore)
    (history : List (List CanvasElement)) (idx : Int) : HistoryStore :=
  if fitsH (history.drop (history.length - 50)) then
    if fitsI (min idx (((history.drop (history.length - 50)).length : Int) - 1)) then
      { st with
        canvasHistory := some (history.drop (history.length - 50)),
        canvasHistoryIndex :=
          some (min idx (((history.drop (history.length - 50)).length : Int) - 1)) }
    else
      persistFallback fitsH fitsI
        { st with canvasHistory := some (history.drop (history.length - 50)) }
        (histCurrent history idx)
  else persistFallback fitsH fitsI st (histCurrent history idx)

end Canvas

namespace Canvas

/-- Helper: the width clamp does not change the candidate height. -/
theorem clampWidth_height (hd : Handle) (sb b : Bounds) :
    (clampWidth hd sb b).height = b.height := by
  unfold clampWidth
  split_ifs <;> rfl

/-- Helper: the width clamp does not change the candidate y. -/
theorem clampWidth_y (hd : Handle) (sb b : Bounds) :
    (clampWidth hd sb b).y = b.y := by
  unfold clampWidth
  split_ifs <;> rfl

/-- Helper: the height clamp does not change the candidate width. -/
theorem clampHeight_width (hd : Handle) (sb b : Bounds) :
    (clampHeight hd sb b).width = b.width := by
  unfold clampHeight
  split_ifs <;> rfl

/-- Helper: the height clamp does not change the candidate x. -/
theorem clampHeight_x (hd : Handle) (sb b : Bounds) :
    (clampHeight hd sb b).x = b.x := by
  unfold clampHeight
  split_ifs <;> rfl

/-- Helper: the clamped candidate width is at least 10. -/
theorem candidate_width_ge (hd : Handle) (sb : Bounds) (dx dy : ℚ) :
    10 ≤ (candidateBounds hd sb dx dy).width := by
  unfold candidateBounds clampMinSize clampHeight clampWidth
  split_ifs <;> simp_all

/-- Helper: the clamped candidate height is at least 10. -/
theorem candidate_height_ge (hd : Handle) (sb : Bounds) (dx dy : ℚ) :
    10 ≤ (candidateBounds hd sb dx dy).height := by
  unfold candidateBounds clampMinSize clampHeight clampWidth
  split_ifs <;> simp_all

/-- Helper: the clamp keeps the candidate x for a handle that does not
drag the west side. -/
theorem clampMinSize_x (hd : Handle) (sb b : Bounds)
    (h : handleHasW hd = false) : (clampMinSize hd sb b).x = b.x := by
  unfold clampMinSize clampHeight clampWidth
  simp only [h, Bool.false_eq_true, if_false]
  split_ifs <;> rfl

/-- Helper: the clamp keeps the candidate y for a handle that does not
drag the north side. -/
theorem clampMinSize_y (hd : Handle) (sb b : Bounds)
    (h : handleHasN hd = false) : (clampMinSize hd sb b).y = b.y := by
  unfold clampMinSize clampHeight clampWidth
  simp only [h, Bool.false_eq_true, if_false]
  split_ifs <;> rfl

/-- Helper: the per-handle switch keeps x for a handle that does not drag
the west side. -/
theorem resizeBounds_x (hd : Handle) (sb : Bounds) (dx dy : ℚ)
    (h : handleHasW hd = false) : (resizeBounds hd sb dx dy).x = sb.x := by
  cases hd <;> simp_all [handleHasW, resizeBounds]

/-- Helper: the per-handle switch keeps y for a handle that does not drag
the north side. -/
theorem resizeBounds_y (hd : Handle) (sb : Bounds) (dx dy : ℚ)
    (h : handleHasN hd = false) : (resizeBounds hd sb dx dy).y = sb.y := by
  cases hd <;> simp_all [handleHasN, resizeBounds]

/-- Helper: for a handle that does not drag the west side, the candidate
origin keeps the start x. -/
theorem candidate_x_of_not_w (hd : Handle) (sb : Bounds) (dx dy : ℚ)
    (h : handleHasW hd = false) : (candidateBounds hd sb dx dy).x = sb.x := by
  rw [candidateBounds, clampMinSize_x hd sb _ h, resizeBounds_x hd sb dx dy h]

/-- Helper: for a handle that does not drag the north side, the candidate
origin keeps the start y. -/
theorem candidate_y_of_not_n (hd : Handle) (sb : Bounds) (dx dy : ℚ)
    (h : handleHasN hd = false) : (candidateBounds hd sb dx dy).y = sb.y := by
  rw [candidateBounds, clampMinSize_y hd sb _ h, resizeBounds_y hd sb dx dy h]

/-- Helper: when neither dimension falls below 10, the clamp is the
identity. -/
theorem clampMinSize_id (hd : Handle) (sb b : Bounds)
    (hW : 10 ≤ b.width) (hH : 10 ≤ b.height) : clampMinSize hd sb b = b := by
  unfold clampMinSize clampHeight clampWidth
  have h1 : ¬ b.width < 10 := by linarith
  have h2 : ¬ b.height < 10 := by linarith
  simp only [if_neg h1]
  simp only [if_neg h2]

/-- Helper: algebraic fixed-point identity behind zoom-about-cursor. -/
theorem zoom_about_cursor_fix (a x s ns : ℚ) (hs : s ≠ 0) :
    (a - x) / s * ns + (a - (a - x) * ns / s) = a := by
  field_simp

/-- Claim C1: a wheel-zoom step multiplies the scale by 1.1 (zoom-in) or
0.9 (zoom-out), clamps the result to [0.1, 10], recomputes the pan offset
by the formula xNew = cursorX - (cursorX - x) * scaleNew / scale
(symmetric in y), and the world point under the cursor keeps the same
screen projection before and after the step. -/
theorem wheel_zoom_spec (v : Viewport) (mx my : ℚ) (zin : Bool)
    (hlo : 1/10 ≤ v.scale) (hhi : v.scale ≤ 10) :
    (wheelZoom v mx my zin).scale
        = max (1/10) (min 10 (v.scale * (if zin then 11/10 else 9/10))) ∧
    1/10 ≤ (wheelZoom v mx my zin).scale ∧
    (wheelZoom v mx my zin).scale ≤ 10 ∧
    (wheelZoom v mx my zin).x
        = mx - (mx - v.x) * (wheelZoom v mx my zin).scale / v.scale ∧
    (wheelZoom v mx my zin).y
        = my - (my - v.y) * (wheelZoom v mx my zin).scale / v.scale ∧
    worldToScreen v (screenToCanvas v mx my) = ⟨mx, my⟩ ∧
    worldToScreen (wheelZoom v mx my zin) (screenToCanvas v mx my) = ⟨mx, my⟩ := by
  have hs : v.scale ≠ 0 := by
    intro h
    rw [h] at hlo
    norm_num at hlo
  refine ⟨rfl, ?_, ?_, rfl, rfl, ?_, ?_⟩
  · exact le_max_left _ _
  · apply max_le (by norm_num)
    exact min_le_left _ _
  · simp only [worldToScreen, screenToCanvas, Point.mk.injEq]
    constructor <;> field_simp
  · simp only [worldToScreen, screenToCanvas, wheelZoom, Point.mk.injEq]
    exact ⟨zoom_about_cursor_fix mx v.x v.scale _ hs, zoom_about_cursor_fix my v.y v.scale _ hs⟩

/-- Witness for C1 at the concrete scenario from the spec: viewport
(0, 0, 1), zoom-in at screen point (400, 300). -/
theorem wheel_zoom_spec_witness :
    (1/10 ≤ (⟨0, 0, 1⟩ : Viewport).scale ∧ (⟨0, 0, 1⟩ : Viewport).scale ≤ 10) ∧
    (worldToScreen (wheelZoom ⟨0, 0, 1⟩ 400 300 true) (screenToCanvas ⟨0, 0, 1⟩ 400 300)
        = ⟨400, 300⟩) :=
  ⟨⟨by norm_num, by norm_num⟩,
   (wheel_zoom_spec ⟨0, 0, 1⟩ 400 300 true (by norm_num) (by norm_num)).2.2.2.2.2.2⟩

/-- Helper: ratio algebra when the width change drives the image resize. -/
theorem aspect_calc_w (w h cw : ℚ) (hw : 0 < w) (hh : 0 < h) (hcw : 0 < cw) :
    0 < cw / (w / h) ∧ cw / (cw / (w / h)) = w / h := by
  have hq : 0 < w / h := div_pos hw hh
  constructor
  · positivity
  · field_simp
    ring

/-- Helper: ratio algebra when the height change drives the image resize. -/
theorem aspect_calc_h (w h ch : ℚ) (hw : 0 < w) (hh : 0 < h) (hch : 0 < ch) :
    0 < ch * (w / h) ∧ ch * (w / h) / ch = w / h := by
  have hq : 0 < w / h := div_pos hw hh
  exact ⟨by positivity, mul_div_cancel_left₀ _ (ne_of_gt hch)⟩

/-- Claim C2 counterexample: the claim asserts every resize result keeps
width and height at least 10 for every variant, but an Image corner-handle
resize derives the non-driving dimension from the aspect ratio after the
clamp, and that derived dimension can fall below 10: a 200 by 100 image
dragged at the se handle by (-185, 0) ends with height 15/2 < 10. -/
theorem resize_min_floor_counterexample :
    (applyResize cImage .se ⟨0, 0, 200, 100⟩ (-185) 0).geom
        = .image 0 0 15 (15/2) "img" ∧ (15/2 : ℚ) < 10 := by
  constructor
  · norm_num [applyResize, candidateBounds, clampMinSize, clampHeight, clampWidth,
      resizeBounds, cImage, baseElem, isCornerHandle, handleHasW, handleHasN, abs] <;>
      decide
  · norm_num

/-- Claim C2 (amended): the clamped candidate bounds always has width and
height at least 10, and when a candidate dimension falls below 10 it is
clamped to 10 with the anchored side repositioned so the opposite edge of
the start bounds stays fixed; the Rectangle, Ellipse and Diamond variants
(every handle) and the Image variant (edge handles) adopt those bounds, so
their resize results respect the 10-unit floor. Image corner handles,
which rederive one dimension from the aspect ratio, are excluded. -/
theorem resize_min_floor_amended (el : CanvasElement) (hd : Handle)
    (sb : Bounds) (dx dy : ℚ) :
    (10 ≤ (candidateBounds hd sb dx dy).width ∧
     10 ≤ (candidateBounds hd sb dx dy).height) ∧
    ((resizeBounds hd sb dx dy).width < 10 →
       (candidateBounds hd sb dx dy).width = 10 ∧
       (handleHasW hd = true →
         (candidateBounds hd sb dx dy).x + 10 = sb.x + sb.width) ∧
       (handleHasW hd = false → (candidateBounds hd sb dx dy).x = sb.x)) ∧
    ((resizeBounds hd sb dx dy).height < 10 →
       (candidateBounds hd sb dx dy).height = 10 ∧
       (handleHasN hd = true →
         (candidateBounds hd sb dx dy).y + 10 = sb.y + sb.height) ∧
       (handleHasN hd = false → (candidateBounds hd sb dx dy).y = sb.y)) ∧
    (∀ x y w h, el.geom = .rectangle x y w h →
       (applyResize el hd sb dx dy).geom = .rectangle (candidateBounds hd sb dx dy).x
         (candidateBounds hd sb dx dy).y (candidateBounds hd sb dx dy).width
         (candidateBounds hd sb dx dy).height) ∧
    (∀ x y w h, el.geom = .ellipse x y w h →
       (applyResize el hd sb dx dy).geom = .ellipse (candidateBounds hd sb dx dy).x
         (candidateBounds hd sb dx dy).y (candidateBounds hd sb dx dy).width
         (candidateBounds hd sb dx dy).height) ∧
    (∀ x y w h, el.geom = .diamond x y w h →
       (applyResize el hd sb dx dy).geom = .diamond (candidateBounds hd sb dx dy).x
         (candidateBounds hd sb dx dy).y (candidateBounds hd sb dx dy).width
         (candidateBounds hd sb dx dy).height) ∧
    (∀ x y w h src, el.geom = .image x y w h src → isCornerHandle hd = false →
       (applyResize el hd sb dx dy).geom = .image (candidateBounds hd sb dx dy).x
         (candidateBounds hd sb dx dy).y (candidateBounds hd sb dx dy).width
         (candidateBounds hd sb dx dy).height src) := by
  refine ⟨⟨candidate_width_ge hd sb dx dy, candidate_height_ge hd sb dx dy⟩,
    ?_, ?_, ?_, ?_, ?_, ?_⟩
  · intro hlt
    have hcw10 : (clampWidth hd sb (resizeBounds hd sb dx dy)).width = 10 := by
      unfold clampWidth
      rw [if_pos hlt]
    have hcx : (clampWidth hd sb (resizeBounds hd sb dx dy)).x
        = if handleHasW hd then sb.x + sb.width - 10
          else (resizeBounds hd sb dx dy).x := by
      unfold clampWidth
      rw [if_pos hlt]
    refine ⟨?_, ?_, ?_⟩
    · unfold candidateBounds clampMinSize
      rw [clampHeight_width, hcw10]
    · intro hw
      unfold candidateBounds clampMinSize
      rw [clampHeight_x, hcx, if_pos hw]
      ring
    · intro hw
      unfold candidateBounds clampMinSize
      rw [clampHeight_x, hcx, if_neg (by simp [hw]), resizeBounds_x hd sb dx dy hw]
  · intro hlt
    have hh2 : (clampWidth hd sb (resizeBounds hd sb dx dy)).height < 10 := by
      rw [clampWidth_height]
      exact hlt
    refine ⟨?_, ?_, ?_⟩
    · unfold candidateBounds clampMinSize clampHeight
      rw [if_pos hh2]
    · intro hn
      unfold candidateBounds clampMinSize clampHeight
      rw [if_pos hh2]
      simp only [hn, if_true]
      ring
    · intro hn
      unfold candidateBounds clampMinSize clampHeight
      rw [if_pos hh2]
      simp only [hn, Bool.false_eq_true, if_false]
      rw [clampWidth_y, resizeBounds_y hd sb dx dy hn]
  · intro x y w h hg
    simp only [applyResize, hg]
  · intro x y w h hg
    simp only [applyResize, hg]
  · intro x y w h hg
    simp only [applyResize, hg]
  · intro x y w h src hg hcorner
    simp only [applyResize, hg, hcorner, Bool.false_eq_true, if_false]

/-- Witness for the amended C2 at a concrete clamped resize: a 100 by 50
rectangle dragged at the e handle by (-95, 0) has candidate width 5, which
is clamped to 10 with the left edge kept at the start x. -/
theorem resize_min_floor_amended_witness :
    ((resizeBounds .e ⟨0, 0, 100, 50⟩ (-95) 0).width < 10) ∧
    (candidateBounds .e ⟨0, 0, 100, 50⟩ (-95) 0).width = 10 ∧
    (handleHasW .e = false → (candidateBounds .e ⟨0, 0, 100, 50⟩ (-95) 0).x = 0) :=
  ⟨by norm_num [resizeBounds],
   ((resize_min_floor_amended cRect .e ⟨0, 0, 100, 50⟩ (-95) 0).2.1
      (by norm_num [resizeBounds])).1,
   fun hw => by
     have := ((resize_min_floor_amended cRect .e ⟨0, 0, 100, 50⟩ (-95) 0).2.1
       (by norm_num [resizeBounds])).2.2 hw
     simpa using this⟩

/-- Claim C3: on an Image, a corner-handle resize preserves the aspect
ratio: the dimension with the larger absolute change drives and the other
is derived from the original ratio; position is re-anchored for nw, ne and
sw so the opposite corner stays fixed, while se anchors at the origin.
Edge handles apply the clamped candidate bounds to both dimensions
freely. -/
theorem image_corner_resize_aspect (e : CanvasElement) (x y w h : ℚ)
    (src : String) (hd : Handle) (dx dy : ℚ)
    (hg : e.geom = .image x y w h src) (hw : 0 < w) (hh : 0 < h) :
    (isCornerHandle hd = true →
      ∃ x2 y2 w2 h2,
        (applyResize e hd ⟨x, y, w, h⟩ dx dy).geom = .image x2 y2 w2 h2 src ∧
        0 < w2 ∧ 0 < h2 ∧ w2 / h2 = w / h ∧
        (hd = .nw → x2 + w2 = x + w ∧ y2 + h2 = y + h) ∧
        (hd = .ne → x2 = x ∧ y2 + h2 = y + h) ∧
        (hd = .sw → x2 + w2 = x + w ∧ y2 = y) ∧
        (hd = .se → x2 = x ∧ y2 = y)) ∧
    (isCornerHandle hd = false →
      (applyResize e hd ⟨x, y, w, h⟩ dx dy).geom =
        .image (candidateBounds hd ⟨x, y, w, h⟩ dx dy).x
          (candidateBounds hd ⟨x, y, w, h⟩ dx dy).y
          (candidateBounds hd ⟨x, y, w, h⟩ dx dy).width
          (candidateBounds hd ⟨x, y, w, h⟩ dx dy).height src) := by
  have hcw : (10 : ℚ) ≤ (candidateBounds hd ⟨x, y, w, h⟩ dx dy).width :=
    candidate_width_ge hd ⟨x, y, w, h⟩ dx dy
  have hch : (10 : ℚ) ≤ (candidateBounds hd ⟨x, y, w, h⟩ dx dy).height :=
    candidate_height_ge hd ⟨x, y, w, h⟩ dx dy
  set c := candidateBounds hd ⟨x, y, w, h⟩ dx dy with hc
  have hcw0 : 0 < c.width := by linarith
  have hch0 : 0 < c.height := by linarith
  constructor
  · intro hcorner
    simp only [applyResize, hg, ← hc, hcorner, if_true]
    by_cases hdrive : |c.width - w| > |c.height - h|
    · simp only [if_pos hdrive]
      obtain ⟨hpos, hratio⟩ := aspect_calc_w w h c.width hw hh hcw0
      cases hd with
      | nw =>
        exact ⟨_, _, _, _, rfl, hcw0, hpos, hratio,
          fun _ => ⟨by simp <;> ring, by simp <;> ring⟩, by simp, by simp, by simp⟩
      | ne =>
        have hx : c.x = x := candidate_x_of_not_w .ne ⟨x, y, w, h⟩ dx dy rfl
        exact ⟨_, _, _, _, rfl, hcw0, hpos, hratio, by simp,
          fun _ => ⟨by simp [hx], by simp <;> ring⟩, by simp, by simp⟩
      | sw =>
        have hy : c.y = y := candidate_y_of_not_n .sw ⟨x, y, w, h⟩ dx dy rfl
        exact ⟨_, _, _, _, rfl, hcw0, hpos, hratio, by simp, by simp,
          fun _ => ⟨by simp <;> ring, by simp [hy]⟩, by simp⟩
      | se =>
        have hx : c.x = x := candidate_x_of_not_w .se ⟨x, y, w, h⟩ dx dy rfl
        have hy : c.y = y := candidate_y_of_not_n .se ⟨x, y, w, h⟩ dx dy rfl
        exact ⟨_, _, _, _, rfl, hcw0, hpos, hratio, by simp, by simp, by simp,
          fun _ => ⟨by simp [hx], by simp [hy]⟩⟩
      | n => simp [isCornerHandle] at hcorner
      | e => simp [isCornerHandle] at hcorner
      | s => simp [isCornerHandle] at hcorner
      | w => simp [isCornerHandle] at hcorner
    · simp only [if_neg hdrive]
      obtain ⟨hpos, hratio⟩ := aspect_calc_h w h c.height hw hh hch0
      cases hd with
      | nw =>
        exact ⟨_, _, _, _, rfl, hpos, hch0, hratio,
          fun _ => ⟨by simp <;> ring, by simp <;> ring⟩, by simp, by simp, by simp⟩
      | ne =>
        have hx : c.x = x := candidate_x_of_not_w .ne ⟨x, y, w, h⟩ dx dy rfl
        exact ⟨_, _, _, _, rfl, hpos, hch0, hratio, by simp,
          fun _ => ⟨by simp [hx], by simp <;> ring⟩, by simp, by simp⟩
      | sw =>
        have hy : c.y = y := candidate_y_of_not_n .sw ⟨x, y, w, h⟩ dx dy rfl
        exact ⟨_, _, _, _, rfl, hpos, hch0, hratio, by simp, by simp,
          fun _ => ⟨by simp <;> ring, by simp [hy]⟩, by simp⟩
      | se =>
        have hx : c.x = x := candidate_x_of_not_w .se ⟨x, y, w, h⟩ dx dy rfl
        have hy : c.y = y := candidate_y_of_not_n .se ⟨x, y, w, h⟩ dx dy rfl
        exact ⟨_, _, _, _, rfl, hpos, hch0, hratio, by simp, by simp, by simp,
          fun _ => ⟨by simp [hx], by simp [hy]⟩⟩
      | n => simp [isCornerHandle] at hcorner
      | e => simp [isCornerHandle] at hcorner
      | s => simp [isCornerHandle] at hcorner
      | w => simp [isCornerHandle] at hcorner
  · intro hcorner
    simp only [applyResize, hg, ← hc, hcorner, Bool.false_eq_true, if_false]

/-- Witness for C3 at the concrete scenario from the spec: a 200 by 100
image dragged at the se corner by (+10, +100) is height-driven and yields
width 400 and height 200, preserving the 2:1 ratio. -/
theorem image_corner_resize_aspect_witness :
    (cImage.geom = .image 0 0 200 100 "img" ∧ (0:ℚ) < 200 ∧ (0:ℚ) < 100) ∧
    (∃ x2 y2 w2 h2,
      (applyResize cImage .se ⟨0, 0, 200, 100⟩ 10 100).geom = .image x2 y2 w2 h2 "img" ∧
      0 < w2 ∧ 0 < h2 ∧ w2 / h2 = (200 : ℚ) / 100 ∧
      (Handle.se = .nw → x2 + w2 = 0 + 200 ∧ y2 + h2 = 0 + 100) ∧
      (Handle.se = .ne → x2 = 0 ∧ y2 + h2 = 0 + 100) ∧
      (Handle.se = .sw → x2 + w2 = 0 + 200 ∧ y2 = 0) ∧
      (Handle.se = .se → x2 = 0 ∧ y2 = 0)) ∧
    (applyResize cImage .se ⟨0, 0, 200, 100⟩ 10 100).geom = .image 0 0 400 200 "img" :=
  ⟨⟨rfl, by norm_num, by norm_num⟩,
   (image_corner_resize_aspect cImage 0 0 200 100 "img" .se 10 100 rfl
      (by norm_num) (by norm_num)).1 rfl,
   by norm_num [applyResize, candidateBounds, clampMinSize, clampHeight, clampWidth,
      resizeBounds, cImage, baseElem, isCornerHandle, handleHasW, handleHasN, abs] <;>
      decide⟩

/-- Claim C5: on a Rectangle, for a corner handle both width and height
change by the cursor delta and the opposite corner stays fixed; for an
edge handle only the perpendicular dimension changes and the opposite
edge stays fixed. Stated for drags whose candidate dimensions stay at or
above the 10-unit floor, so the minimum-size clamp is inactive. -/
theorem rect_resize_per_handle (e : CanvasElement) (x y w h : ℚ)
    (hd : Handle) (dx dy : ℚ) (hg : e.geom = .rectangle x y w h)
    (hW : 10 ≤ (resizeBounds hd ⟨x, y, w, h⟩ dx dy).width)
    (hH : 10 ≤ (resizeBounds hd ⟨x, y, w, h⟩ dx dy).height) :
    ∃ x2 y2 w2 h2,
      (applyResize e hd ⟨x, y, w, h⟩ dx dy).geom = .rectangle x2 y2 w2 h2 ∧
      (hd = .nw → w2 = w - dx ∧ h2 = h - dy ∧ x2 + w2 = x + w ∧ y2 + h2 = y + h) ∧
      (hd = .n → w2 = w ∧ h2 = h - dy ∧ x2 = x ∧ y2 + h2 = y + h) ∧
      (hd = .ne → w2 = w + dx ∧ h2 = h - dy ∧ x2 = x ∧ y2 + h2 = y + h) ∧
      (hd = .e → w2 = w + dx ∧ h2 = h ∧ x2 = x ∧ y2 = y) ∧
      (hd = .se → w2 = w + dx ∧ h2 = h + dy ∧ x2 = x ∧ y2 = y) ∧
      (hd = .s → w2 = w ∧ h2 = h + dy ∧ x2 = x ∧ y2 = y) ∧
      (hd = .sw → w2 = w - dx ∧ h2 = h + dy ∧ x2 + w2 = x + w ∧ y2 = y) ∧
      (hd = .w → w2 = w - dx ∧ h2 = h ∧ x2 + w2 = x + w ∧ y2 = y) := by
  have hcand : candidateBounds hd ⟨x, y, w, h⟩ dx dy = resizeBounds hd ⟨x, y, w, h⟩ dx dy :=
    clampMinSize_id hd ⟨x, y, w, h⟩ _ hW hH
  have hres : (applyResize e hd ⟨x, y, w, h⟩ dx dy).geom
      = .rectangle (resizeBounds hd ⟨x, y, w, h⟩ dx dy).x
        (resizeBounds hd ⟨x, y, w, h⟩ dx dy).y
        (resizeBounds hd ⟨x, y, w, h⟩ dx dy).width
        (resizeBounds hd ⟨x, y, w, h⟩ dx dy).height := by
    simp only [applyResize, hg, hcand]
  refine ⟨_, _, _, _, hres, ?_, ?_, ?_, ?_, ?_, ?_, ?_, ?_⟩ <;>
    intro heq <;> subst heq <;>
    refine ⟨?_, ?_, ?_, ?_⟩ <;> simp [resizeBounds] <;> ring

/-- Witness for C5 at the concrete scenario from the spec: the 100 by 50
rectangle at the origin dragged at the se handle by (+20, +20) yields
width 120, height 70 with the origin unchanged. -/
theorem rect_resize_per_handle_witness :
    (10 ≤ (resizeBounds .se ⟨0, 0, 100, 50⟩ 20 20).width ∧
     10 ≤ (resizeBounds .se ⟨0, 0, 100, 50⟩ 20 20).height) ∧
    (∃ x2 y2 w2 h2,
      (applyResize cRect .se ⟨0, 0, 100, 50⟩ 20 20).geom = .rectangle x2 y2 w2 h2 ∧
      (Handle.se = .nw → w2 = 100 - 20 ∧ h2 = 50 - 20 ∧ x2 + w2 = 0 + 100 ∧ y2 + h2 = 0 + 50) ∧
      (Handle.se = .n → w2 = 100 ∧ h2 = 50 - 20 ∧ x2 = 0 ∧ y2 + h2 = 0 + 50) ∧
      (Handle.se = .ne → w2 = 100 + 20 ∧ h2 = 50 - 20 ∧ x2 = 0 ∧ y2 + h2 = 0 + 50) ∧
      (Handle.se = .e → w2 = 100 + 20 ∧ h2 = 50 ∧ x2 = 0 ∧ y2 = 0) ∧
      (Handle.se = .se → w2 = 100 + 20 ∧ h2 = 50 + 20 ∧ x2 = 0 ∧ y2 = 0) ∧
      (Handle.se = .s → w2 = 100 ∧ h2 = 50 + 20 ∧ x2 = 0 ∧ y2 = 0) ∧
      (Handle.se = .sw → w2 = 100 - 20 ∧ h2 = 50 + 20 ∧ x2 + w2 = 0 + 100 ∧ y2 = 0) ∧
      (Handle.se = .w → w2 = 100 - 20 ∧ h2 = 50 ∧ x2 + w2 = 0 + 100 ∧ y2 = 0)) ∧
    (applyResize cRect .se ⟨0, 0, 100, 50⟩ 20 20).geom = .rectangle 0 0 120 70 :=
  ⟨⟨by norm_num [resizeBounds], by norm_num [resizeBounds]⟩,
   rect_resize_per_handle cRect 0 0 100 50 .se 20 20 rfl
     (by norm_num [resizeBounds]) (by norm_num [resizeBounds]),
   by norm_num [applyResize, candidateBounds, clampMinSize, clampHeight, clampWidth,
      resizeBounds, cRect, baseElem]⟩

/-- Claim C8: for any viewport with nonzero scale, mapping a world point to
the screen and back is the identity. -/
theorem screen_world_round_trip (v : Viewport) (p : Point) (hs : v.scale ≠ 0) :
    screenToCanvas v (worldToScreen v p).x (worldToScreen v p).y = p := by
  cases p with
  | mk px py =>
    simp only [worldToScreen, screenToCanvas, Point.mk.injEq]
    constructor <;> field_simp

/-- Witness for C8 at viewport (3, 4, 2) and world point (5, 6). -/
theorem screen_world_round_trip_witness :
    ((⟨3, 4, 2⟩ : Viewport).scale ≠ 0) ∧
    screenToCanvas ⟨3, 4, 2⟩ (worldToScreen ⟨3, 4, 2⟩ ⟨5, 6⟩).x
        (worldToScreen ⟨3, 4, 2⟩ ⟨5, 6⟩).y = ⟨5, 6⟩ :=
  ⟨by norm_num, screen_world_round_trip ⟨3, 4, 2⟩ ⟨5, 6⟩ (by norm_num)⟩


/-- Helper: the minimum of two rationals plus the absolute difference is
the maximum. -/
theorem min_add_abs_sub (a b : ℚ) : min a b + |b - a| = max a b := by
  rcases le_total a b with h | h
  · rw [min_eq_left h, abs_of_nonneg (by linarith), max_eq_right h]
    ring
  · rw [min_eq_right h, abs_of_nonpos (by linarith), max_eq_left h]
    ring

/-- Claim C4: on marquee pointer-up an element is selected iff its bounds
exist and lie fully inside the normalized box; elements whose bounds
straddle the boundary are excluded because containment, not intersection,
is required on every side. -/
theorem marquee_selects_iff_contained (measure : String → ℚ → String → ℚ × ℚ)
    (sp ep : Point) (els : List CanvasElement) (el : CanvasElement)
    (hnd : (els.map fun e => e.id).Nodup) (hmem : el ∈ els) :
    el.id ∈ marqueeSelect measure sp ep els ↔
      ∃ b, getElementBounds measure el = some b ∧
        min sp.x ep.x ≤ b.x ∧ b.x + b.width ≤ max sp.x ep.x ∧
        min sp.y ep.y ≤ b.y ∧ b.y + b.height ≤ max sp.y ep.y := by
  unfold marqueeSelect
  constructor
  · intro hid
    rw [List.mem_map] at hid
    obtain ⟨e2, he2, hideq⟩ := hid
    rw [List.mem_filter] at he2
    have hsame : e2 = el := List.inj_on_of_nodup_map hnd he2.1 hmem hideq
    subst hsame
    have hhit := he2.2
    unfold marqueeHit at hhit
    cases hb : getElementBounds measure e2 with
    | none =>
      rw [hb] at hhit
      simp at hhit
    | some b =>
      rw [hb] at hhit
      simp only [Bool.and_eq_true, decide_eq_true_eq] at hhit
      exact ⟨b, rfl, hhit.1.1.1, hhit.1.1.2, hhit.1.2, hhit.2⟩
  · rintro ⟨b, hb, h1, h2, h3, h4⟩
    rw [List.mem_map]
    refine ⟨el, List.mem_filter.mpr ⟨hmem, ?_⟩, rfl⟩
    unfold marqueeHit
    rw [hb]
    simp only [Bool.and_eq_true, decide_eq_true_eq]
    exact ⟨⟨⟨h1, h2⟩, h3⟩, h4⟩

/-- Witness for C4: with a contained rectangle and a straddling rectangle,
the box from (-10, -10) to (150, 100) selects exactly the contained one. -/
theorem marquee_selects_iff_contained_witness :
    (([cRect, cRect2].map fun e => e.id).Nodup ∧ cRect ∈ [cRect, cRect2]) ∧
    (cRect.id ∈ marqueeSelect cMeasure ⟨-10, -10⟩ ⟨150, 100⟩ [cRect, cRect2] ↔
      ∃ b, getElementBounds cMeasure cRect = some b ∧
        min (-10 : ℚ) 150 ≤ b.x ∧ b.x + b.width ≤ max (-10 : ℚ) 150 ∧
        min (-10 : ℚ) 100 ≤ b.y ∧ b.y + b.height ≤ max (-10 : ℚ) 100) ∧
    marqueeSelect cMeasure ⟨-10, -10⟩ ⟨150, 100⟩ [cRect, cRect2] = ["r1"] :=
  ⟨⟨by decide, by simp⟩,
   marquee_selects_iff_contained cMeasure ⟨-10, -10⟩ ⟨150, 100⟩ [cRect, cRect2]
     cRect (by decide) (by simp),
   by norm_num [marqueeSelect, marqueeHit, getElementBounds, cRect, cRect2, baseElem,
     cMeasure, List.filter_cons]⟩

/-- Claim C7 counterexample: the claim asserts that bounds of a Rectangle
with negative drag width/height is normalized to a non-negative box, but
getElementBounds returns the raw signed fields: the rectangle drawn from
(0, 0) with width -50 and height -30 yields a bounds box of width -50,
not the normalized box. -/
theorem bounds_normalized_counterexample :
    getElementBounds cMeasure cRectNeg = some ⟨0, 0, -50, -30⟩ ∧
    ¬ (0 : ℚ) ≤ -50 ∧
    (⟨0, 0, -50, -30⟩ : Bounds) ≠ ⟨-50, -30, 50, 30⟩ := by
  refine ⟨rfl, by norm_num, by decide⟩

/-- Claim C7 (amended): getElementBounds returns, for Rectangle, Ellipse
and Diamond, the raw origin and signed width/height exactly as stored
(with no normalization), while for Line and Arrow it returns the
normalized box given by the min of the endpoints and the absolute
differences, which has non-negative width and height and reaches the max
of the endpoints on each axis. -/
theorem bounds_amended (measure : String → ℚ → String → ℚ × ℚ)
    (el : CanvasElement) :
    (∀ x y w h, el.geom = .rectangle x y w h →
      getElementBounds measure el = some ⟨x, y, w, h⟩) ∧
    (∀ x y w h, el.geom = .ellipse x y w h →
      getElementBounds measure el = some ⟨x, y, w, h⟩) ∧
    (∀ x y w h, el.geom = .diamond x y w h →
      getElementBounds measure el = some ⟨x, y, w, h⟩) ∧
    (∀ sx sy ex ey, el.geom = .line sx sy ex ey →
      ∃ b, getElementBounds measure el = some b ∧
        b.x = min sx ex ∧ b.y = min sy ey ∧
        b.width = |ex - sx| ∧ b.height = |ey - sy| ∧
        0 ≤ b.width ∧ 0 ≤ b.height ∧
        b.x + b.width = max sx ex ∧ b.y + b.height = max sy ey) ∧
    (∀ sx sy ex ey, el.geom = .arrow sx sy ex ey →
      ∃ b, getElementBounds measure el = some b ∧
        b.x = min sx ex ∧ b.y = min sy ey ∧
        b.width = |ex - sx| ∧ b.height = |ey - sy| ∧
        0 ≤ b.width ∧ 0 ≤ b.height ∧
        b.x + b.width = max sx ex ∧ b.y + b.height = max sy ey) := by
  refine ⟨?_, ?_, ?_, ?_, ?_⟩
  · intro x y w h hg
    simp [getElementBounds, hg]
  · intro x y w h hg
    simp [getElementBounds, hg]
  · intro x y w h hg
    simp [getElementBounds, hg]
  · intro sx sy ex ey hg
    refine ⟨⟨min sx ex, min sy ey, |ex - sx|, |ey - sy|⟩, by simp [getElementBounds, hg],
      rfl, rfl, rfl, rfl, abs_nonneg _, abs_nonneg _, ?_, ?_⟩
    · exact min_add_abs_sub sx ex
    · exact min_add_abs_sub sy ey
  · intro sx sy ex ey hg
    refine ⟨⟨min sx ex, min sy ey, |ex - sx|, |ey - sy|⟩, by simp [getElementBounds, hg],
      rfl, rfl, rfl, rfl, abs_nonneg _, abs_nonneg _, ?_, ?_⟩
    · exact min_add_abs_sub sx ex
    · exact min_add_abs_sub sy ey

/-- Witness for the amended C7 at the concrete line with unordered
endpoints (10, 20) to (3, 7). -/
theorem bounds_amended_witness :
    ∃ b, getElementBounds cMeasure cLine = some b ∧
      b.x = min (10 : ℚ) 3 ∧ b.y = min (20 : ℚ) 7 ∧
      b.width = |(3 : ℚ) - 10| ∧ b.height = |(7 : ℚ) - 20| ∧
      0 ≤ b.width ∧ 0 ≤ b.height ∧
      b.x + b.width = max (10 : ℚ) 3 ∧ b.y + b.height = max (20 : ℚ) 7 :=
  (bounds_amended cMeasure cLine).2.2.2.1 10 20 3 7 rfl


/-- Helper: the identifier of a clone is the fresh identifier it was
built with. -/
theorem offsetPositionalFields_id (e : CanvasElement) (s2 : String) :
    (offsetPositionalFields e s2).id = s2 := rfl

/-- Helper: cloning preserves the number of matched elements. -/
theorem cloneAll_length (f : Nat → String) (st : Nat) (l : List CanvasElement) :
    (cloneAll f st l).length = l.length := by
  induction l generalizing st with
  | nil => rfl
  | cons a l ih => simp [cloneAll, ih]

/-- Helper: the clone at position i is the offset copy of the matched
element at position i, with the fresh identifier at the shifted index. -/
theorem cloneAll_getElem? (f : Nat → String) (st i : Nat) (l : List CanvasElement) :
    (cloneAll f st l)[i]? = l[i]?.map fun e => offsetPositionalFields e (f (st + i)) := by
  induction l generalizing st i with
  | nil => simp [cloneAll]
  | cons a l ih =>
    cases i with
    | zero => simp [cloneAll]
    | succ j =>
      simp only [cloneAll, List.getElem?_cons_succ, ih (st + 1) j]
      have : st + 1 + j = st + (j + 1) := by omega
      rw [this]

/-- Helper: every clone carries an identifier drawn from the fresh-id
generator. -/
theorem cloneAll_mem (f : Nat → String) :
    ∀ (l : List CanvasElement) (st : Nat) (c : CanvasElement),
      c ∈ cloneAll f st l → ∃ n, c.id = f n := by
  intro l
  induction l with
  | nil =>
    intro st c hc
    simp [cloneAll] at hc
  | cons a l ih =>
    intro st c hc
    simp only [cloneAll, List.mem_cons] at hc
    rcases hc with h | h
    · exact ⟨st, by rw [h, offsetPositionalFields_id]⟩
    · exact ih (st + 1) c h

/-- Claim C6 counterexample: the claim asserts duplicate offsets every
positional field including Path points by (20, 20), but the duplicate
spread only updates x, y, startX, startY, endX and endY, and a Path has
none of them: the clone of the path with points (0,0) and (5,5) keeps
exactly those points, so it coincides with its source instead of being
offset. -/
theorem duplicate_path_counterexample :
    (duplicateSelected (fun _ => "p2") ["p1"] [cPath]).map (fun e => e.geom)
        = [.path [⟨0, 0⟩, ⟨5, 5⟩], .path [⟨0, 0⟩, ⟨5, 5⟩]] ∧
    ElemGeom.path [⟨(0 : ℚ), 0⟩, ⟨5, 5⟩] ≠ .path [⟨20, 20⟩, ⟨25, 25⟩] := by
  exact ⟨rfl, by decide⟩

/-- Claim C6 (amended): duplicate appends one clone per matched element,
in order; each clone takes its identifier from the fresh-id generator
(and so differs from every existing identifier whenever the generator
avoids them), keeps every non-positional field, offsets the x/y origin
and the Line/Arrow endpoint fields by exactly (20, 20) when the variant
has them, introduces no field absent on the variant, and leaves Path
points unchanged. -/
theorem duplicate_offset_amended (freshId : Nat → String) (sel : List String)
    (els : List CanvasElement) :
    ∃ clones, duplicateSelected freshId sel els = els ++ clones ∧
      clones.length = (els.filter fun e => sel.contains e.id).length ∧
      (∀ (i : Nat) (e c : CanvasElement),
        (els.filter fun e2 => sel.contains e2.id)[i]? = some e →
        clones[i]? = some c →
        c.id = freshId i ∧ c.color = e.color ∧ c.strokeWidth = e.strokeWidth ∧
        c.fill = e.fill ∧ c.opacity = e.opacity ∧ c.roughness = e.roughness ∧
        c.strokeStyle = e.strokeStyle ∧ c.seed = e.seed ∧
        (∀ pts, e.geom = .path pts → c.geom = .path pts) ∧
        (∀ x y w h, e.geom = .rectangle x y w h →
          c.geom = .rectangle (x + 20) (y + 20) w h) ∧
        (∀ x y r, e.geom = .circle x y r → c.geom = .circle (x + 20) (y + 20) r) ∧
        (∀ x y w h, e.geom = .ellipse x y w h →
          c.geom = .ellipse (x + 20) (y + 20) w h) ∧
        (∀ x y w h, e.geom = .diamond x y w h →
          c.geom = .diamond (x + 20) (y + 20) w h) ∧
        (∀ sx sy ex ey, e.geom = .line sx sy ex ey →
          c.geom = .line (sx + 20) (sy + 20) (ex + 20) (ey + 20)) ∧
        (∀ sx sy ex ey, e.geom = .arrow sx sy ex ey →
          c.geom = .arrow (sx + 20) (sy + 20) (ex + 20) (ey + 20)) ∧
        (∀ x y t fs ff, e.geom = .text x y t fs ff →
          c.geom = .text (x + 20) (y + 20) t fs ff) ∧
        (∀ x y w h src, e.geom = .image x y w h src →
          c.geom = .image (x + 20) (y + 20) w h src)) ∧
      ((∀ n, freshId n ∉ els.map fun e => e.id) →
        ∀ c ∈ clones, c.id ∉ els.map fun e => e.id) := by
  refine ⟨cloneAll freshId 0 (els.filter fun e => sel.contains e.id), rfl,
    cloneAll_length _ _ _, ?_, ?_⟩
  · intro i e c he hc
    rw [cloneAll_getElem? freshId 0 i _, he, Option.map_some'] at hc
    have hc2 : offsetPositionalFields e (freshId (0 + i)) = c := Option.some.inj hc
    rw [Nat.zero_add] at hc2
    subst hc2
    refine ⟨rfl, rfl, rfl, rfl, rfl, rfl, rfl, rfl,
      fun pts hg => by simp [offsetPositionalFields, hg],
      fun x y w h hg => by simp [offsetPositionalFields, hg],
      fun x y r hg => by simp [offsetPositionalFields, hg],
      fun x y w h hg => by simp [offsetPositionalFields, hg],
      fun x y w h hg => by simp [offsetPositionalFields, hg],
      fun sx sy ex ey hg => by simp [offsetPositionalFields, hg],
      fun sx sy ex ey hg => by simp [offsetPositionalFields, hg],
      fun x y t fs ff hg => by simp [offsetPositionalFields, hg],
      fun x y w h src hg => by simp [offsetPositionalFields, hg]⟩
  · intro hfresh c hcmem
    obtain ⟨n, hn⟩ := cloneAll_mem freshId _ 0 c hcmem
    rw [hn]
    exact hfresh n

/-- Witness for the amended C6: duplicating the selected rectangle appends
one clone whose identifier comes from the generator. -/
theorem duplicate_offset_amended_witness :
    ∃ clones, duplicateSelected (fun _ => "fresh") ["r1"] [cRect] = [cRect] ++ clones ∧
      clones.length = ([cRect].filter fun e => ["r1"].contains e.id).length := by
  obtain ⟨clones, h1, h2, _, _⟩ :=
    duplicate_offset_amended (fun _ => "fresh") ["r1"] [cRect]
  exact ⟨clones, h1, h2⟩

/-- Claim C9: the history persistence effect truncates to the most recent
50 snapshots and writes them with the clamped cursor when the storage
accepts them; when the storage refuses the truncated history, only the
current snapshot is written with cursor 0; when that is refused too, both
history keys are removed; and in every branch the live element collection
key is untouched. -/
theorem persist_history_spec (fitsH : List (List CanvasElement) → Bool)
    (fitsI : Int → Bool) (st : HistoryStore)
    (history : List (List CanvasElement)) (idx : Int) :
    (persistHistory fitsH fitsI st history idx).canvasElements = st.canvasElements ∧
    (history.drop (history.length - 50)).length ≤ 50 ∧
    (fitsH (history.drop (history.length - 50)) = true →
      fitsI (min idx (((history.drop (history.length - 50)).length : Int) - 1)) = true →
      (persistHistory fitsH fitsI st history idx).canvasHistory
          = some (history.drop (history.length - 50)) ∧
      (persistHistory fitsH fitsI st history idx).canvasHistoryIndex
          = some (min idx (((history.drop (history.length - 50)).length : Int) - 1))) ∧
    (fitsH (history.drop (history.length - 50)) = false →
      fitsH [histCurrent history idx] = true → fitsI 0 = true →
      (persistHistory fitsH fitsI st history idx).canvasHistory
          = some [histCurrent history idx] ∧
      (persistHistory fitsH fitsI st history idx).canvasHistoryIndex = some 0) ∧
    (fitsH (history.drop (history.length - 50)) = false →
      fitsH [histCurrent history idx] = false →
      (persistHistory fitsH fitsI st history idx).canvasHistory = none ∧
      (persistHistory fitsH fitsI st history idx).canvasHistoryIndex = none) := by
  refine ⟨?_, ?_, ?_, ?_, ?_⟩
  · unfold persistHistory persistFallback
    split_ifs <;> rfl
  · rw [List.length_drop]
    omega
  · intro h1 h2
    unfold persistHistory
    rw [if_pos h1, if_pos h2]
    exact ⟨rfl, rfl⟩
  · intro h1 h2 h3
    unfold persistHistory persistFallback
    rw [if_neg (by simp [h1]), if_pos h2, if_pos h3]
    exact ⟨rfl, rfl⟩
  · intro h1 h2
    unfold persistHistory persistFallback
    rw [if_neg (by simp [h1]), if_neg (by simp [h2])]
    exact ⟨rfl, rfl⟩

/-- Witness for C9 with a storage that accepts every write: the truncated
history of one empty snapshot is persisted with cursor 0, and the element
collection key is untouched. -/
theorem persist_history_spec_witness :
    (persistHistory (fun _ => true) (fun _ => true)
        ⟨none, none, some []⟩ [[]] 0).canvasElements = some [] ∧
    (persistHistory (fun _ => true) (fun _ => true)
        ⟨none, none, some []⟩ [[]] 0).canvasHistory = some [[]] :=
  ⟨(persist_history_spec (fun _ => true) (fun _ => true)
      ⟨none, none, some []⟩ [[]] 0).1,
   ((persist_history_spec (fun _ => true) (fun _ => true)
      ⟨none, none, some []⟩ [[]] 0).2.2.1 rfl rfl).1⟩

/-- Claim C10: moving a selection keeps the collection length, order and
identifiers; a selected element keeps its variant and every non-geometric
field while its positional fields are translated by the world delta (the
screen delta divided by the viewport scale); an unselected element is
returned unchanged. -/
theorem move_selection_spec (sel : List String) (scale dx dy : ℚ)
    (els : List CanvasElement) :
    (moveSelected sel scale dx dy els).length = els.length ∧
    ∀ (i : Nat) (e e2 : CanvasElement), els[i]? = some e →
      (moveSelected sel scale dx dy els)[i]? = some e2 →
      e2.id = e.id ∧ e2.color = e.color ∧ e2.strokeWidth = e.strokeWidth ∧
      e2.fill = e.fill ∧ e2.opacity = e.opacity ∧ e2.roughness = e.roughness ∧
      e2.strokeStyle = e.strokeStyle ∧ e2.seed = e.seed ∧
      (sel.contains e.id = false → e2 = e) ∧
      (sel.contains e.id = true →
        (∀ x y w h, e.geom = .rectangle x y w h →
          e2.geom = .rectangle (x + dx / scale) (y + dy / scale) w h) ∧
        (∀ x y w h, e.geom = .ellipse x y w h →
          e2.geom = .ellipse (x + dx / scale) (y + dy / scale) w h) ∧
        (∀ x y w h, e.geom = .diamond x y w h →
          e2.geom = .diamond (x + dx / scale) (y + dy / scale) w h) ∧
        (∀ x y t fs ff, e.geom = .text x y t fs ff →
          e2.geom = .text (x + dx / scale) (y + dy / scale) t fs ff) ∧
        (∀ x y w h src, e.geom = .image x y w h src →
          e2.geom = .image (x + dx / scale) (y + dy / scale) w h src) ∧
        (∀ x y r, e.geom = .circle x y r →
          e2.geom = .circle (x + dx / scale) (y + dy / scale) r) ∧
        (∀ sx sy ex ey, e.geom = .line sx sy ex ey →
          e2.geom = .line (sx + dx / scale) (sy + dy / scale)
            (ex + dx / scale) (ey + dy / scale)) ∧
        (∀ sx sy ex ey, e.geom = .arrow sx sy ex ey →
          e2.geom = .arrow (sx + dx / scale) (sy + dy / scale)
            (ex + dx / scale) (ey + dy / scale)) ∧
        (∀ pts, e.geom = .path pts →
          e2.geom = .path (pts.map fun p =>
            ⟨p.x + dx / scale, p.y + dy / scale⟩))) := by
  refine ⟨by simp [moveSelected], ?_⟩
  intro i e e2 he he2
  rw [moveSelected, List.getElem?_map, he, Option.map_some'] at he2
  have heq : moveElement sel (dx / scale) (dy / scale) e = e2 := Option.some.inj he2
  subst heq
  unfold moveElement
  cases hsel : sel.contains e.id with
  | false =>
    simp [hsel]
  | true =>
    refine ⟨rfl, rfl, rfl, rfl, rfl, rfl, rfl, rfl, fun h => absurd h (by decide),
      fun _ => ?_⟩
    refine ⟨fun x y w h hg => by simp [hg],
        fun x y w h hg => by simp [hg],
        fun x y w h hg => by simp [hg],
        fun x y t fs ff hg => by simp [hg],
        fun x y w h src hg => by simp [hg],
        fun x y r hg => by simp [hg],
        fun sx sy ex ey hg => by simp [hg],
        fun sx sy ex ey hg => by simp [hg],
        fun pts hg => by simp [hg]⟩

/-- Witness for C10: moving the selected rectangle by screen delta
(10, 20) at scale 2 yields the rectangle translated by (5, 10), with its
identifier preserved. -/
theorem move_selection_spec_witness :
    (moveSelected ["r1"] 2 10 20 [cRect])[0]? = some cRectMoved ∧
    cRectMoved.id = cRect.id := by
  have hme : (moveSelected ["r1"] 2 10 20 [cRect])[0]? = some cRectMoved := by
    norm_num [moveSelected, moveElement, cRect, cRectMoved, baseElem]
  exact ⟨hme,
    ((move_selection_spec ["r1"] 2 10 20 [cRect]).2 0 cRect cRectMoved rfl hme).1⟩

end Canvas
